import Mathlib

/-!
Shallow embedding of the task store of bogi42/taskmaster.

The embedded code is the core crate (src/tasks): the `Task` record
(task.rs), the `TaskError` taxonomy (task_error.rs) and the
`TaskManager` store (task_manager.rs), plus the one piece of the CLI
layer the claims mention, `build_description` (taskmaster/main.rs).

External effects are made explicit:
  - the backing file is passed to `load_tasks` as an `Option String`
    (`none` models a path that does not exist);
  - JSON decoding (serde_json::from_str) and encoding
    (serde_json::to_string_pretty) are external library calls, so they
    enter as function parameters `parse : String -> Option (List Task)`
    and `serialize : List Task -> String`; theorems that depend on their
    behaviour carry the corresponding facts as hypotheses;
  - `save_tasks` is modelled both as the string it writes and, for the
    atomicity claim, as the sequence of file-system operations the code
    performs (File::create, then write_all).
-/

namespace Taskmaster

/-- Embedding of Rust str::trim: drop leading and trailing whitespace
characters. Kept at the character-list level so it evaluates. -/
def rustTrim (s : String) : String :=
  String.mk ((s.data.dropWhile Char.isWhitespace).reverse.dropWhile Char.isWhitespace).reverse

/-- Priority of a task (task.rs). -/
inductive Priority where
  | Low
  | Medium
  | High
deriving DecidableEq

/-- serde default for Priority: Medium (task.rs, impl Default). -/
def Priority.default : Priority := Priority.Medium

/-- One to-do item (task.rs, struct Task). -/
structure Task where
  id : Nat
  description : String
  completed : Bool
  priority : Priority
deriving DecidableEq

/-- serde default for the id field, the legacy sentinel (task.rs, default_task_id). -/
def default_task_id : Nat := 0

/-- Constructor (task.rs, Task::new_task). -/
def Task.new_task (description : String) (id : Nat) (priority : Priority) : Task :=
  { id := id, description := description, completed := false, priority := priority }

/-- task.rs, Task::prio_up: Low to Medium to High, saturating at High. -/
def Task.prio_up (t : Task) : Task :=
  { t with priority :=
      match t.priority with
      | Priority.Low => Priority.Medium
      | Priority.Medium => Priority.High
      | Priority.High => Priority.High }

/-- task.rs, Task::prio_down: High to Medium to Low, saturating at Low. -/
def Task.prio_down (t : Task) : Task :=
  { t with priority :=
      match t.priority with
      | Priority.Low => Priority.Low
      | Priority.Medium => Priority.Low
      | Priority.High => Priority.Medium }

/-- task.rs, Task::mark_completed. -/
def Task.mark_completed (t : Task) : Task :=
  { t with completed := true }

/-- task.rs, Task::set_description. -/
def Task.set_description (t : Task) (description : String) : Task :=
  { t with description := description }

/-- task.rs, Task::set_id. -/
def Task.set_id (t : Task) (new_id : Nat) : Task :=
  { t with id := new_id }

/-- Error taxonomy (task_error.rs, enum TaskError). The payload of the
Io / Json variants (the underlying library error) is not modelled. -/
inductive TaskError where
  | TaskNotFound (id : Nat)
  | IoError
  | Empty (field : String)
  | Json
  | Unknown (msg : String)
  | InputCancelled
  | ArgumentMismatch (msg : String)
deriving DecidableEq

/-- The task store (task_manager.rs, struct TaskManager). The path is kept
as an opaque string handle; file contents are passed to load explicitly. -/
structure TaskManager where
  tasks : List Task
  file_path : String
  next_available_id : Nat
deriving DecidableEq

/-- task_manager.rs, TaskManager::new. -/
def TaskManager.new (file_path : String) : TaskManager :=
  { tasks := [], file_path := file_path, next_available_id := 1 }

/-- First pass of the load migration (task_manager.rs lines 52-58): the
running maximum of ids, seeded with `m`. The code keeps
`if task.get_id() > current_max_id`. -/
def runningMaxId (m : Nat) (l : List Task) : Nat :=
  l.foldl (fun acc t => if t.id > acc then t.id else acc) m

/-- Second pass of the load migration (task_manager.rs lines 61-66):
walk the collection in order; every task with id 0 gets
`current_max_id + 1` and the running maximum advances. Returns the final
running maximum together with the renumbered collection. -/
def assignIds (m : Nat) : List Task → Nat × List Task
  | [] => (m, [])
  | t :: ts =>
    if t.id = 0 then
      let r := assignIds (m + 1) ts
      (r.1, t.set_id (m + 1) :: r.2)
    else
      let r := assignIds m ts
      (r.1, t :: r.2)

/-- task_manager.rs, TaskManager::load_tasks. `file = none` models a
nonexistent path; `parse` stands for serde_json::from_str (`none` is a
parse failure). The emptiness test embeds `contents.trim().is_empty()`.
On a parse failure the store is left as it was (the Rust assignment to
self.tasks never happens), hence the Except result carries the new state
only on success. -/
def TaskManager.load_tasks (parse : String → Option (List Task))
    (tm : TaskManager) (file : Option String) : Except TaskError TaskManager :=
  match file with
  | none => Except.ok { tm with tasks := [], next_available_id := 1 }
  | some contents =>
    if (rustTrim contents).data.isEmpty then
      Except.ok { tm with tasks := [], next_available_id := 1 }
    else
      match parse contents with
      | none => Except.error TaskError.Json
      | some loaded =>
        let current_max_id := runningMaxId 0 loaded
        let r := assignIds current_max_id loaded
        Except.ok { tm with tasks := r.2, next_available_id := r.1 + 1 }

/-- The store as the caller sees it after load_tasks: on an error the
store keeps its previous state. -/
def TaskManager.loadRun (parse : String → Option (List Task))
    (tm : TaskManager) (file : Option String) : TaskManager :=
  match tm.load_tasks parse file with
  | Except.ok tm2 => tm2
  | Except.error _ => tm

/-- task_manager.rs, TaskManager::save_tasks, seen as the string written
to the backing file: serde_json::to_string_pretty of the collection,
abstracted as the `serialize` parameter. -/
def TaskManager.save_tasks (serialize : List Task → String) (tm : TaskManager) : String :=
  serialize tm.tasks

/-- The two file-system operations save_tasks performs, in order
(task_manager.rs lines 76-77): fs::File::create truncates the backing
file, then write_all appends the serialized bytes. -/
inductive FsOp where
  | create
  | writeAll (s : String)
deriving DecidableEq

/-- task_manager.rs lines 74-77 as an operation trace. -/
def TaskManager.save_ops (serialize : List Task → String) (tm : TaskManager) : List FsOp :=
  [FsOp.create, FsOp.writeAll (serialize tm.tasks)]

/-- Effect of one file-system operation on the observable content of the
backing file (`none` = the file does not exist): create truncates to
empty, write_all appends at the end. -/
def applyFsOp (file : Option String) : FsOp → Option String
  | FsOp.create => some ""
  | FsOp.writeAll s => some ((file.getD "") ++ s)

/-- Every content of the backing file observable while an operation trace
runs, the state before the first operation included. -/
def observableContents (init : Option String) (ops : List FsOp) : List (Option String) :=
  ops.scanl applyFsOp init

/-- task_manager.rs, TaskManager::add_task: returns the id of the new
task together with the updated store. -/
def TaskManager.add_task (tm : TaskManager) (description : String) : Nat × TaskManager :=
  let new_id := tm.next_available_id
  let new_task := Task.new_task description tm.next_available_id Priority.Medium
  (new_id, { tm with tasks := tm.tasks ++ [new_task],
                     next_available_id := tm.next_available_id + 1 })

/-- task_manager.rs, TaskManager::find_id: index of the first task with
the given id. -/
def TaskManager.find_id (tm : TaskManager) (id : Nat) : Option Nat :=
  tm.tasks.findIdx? (fun t => t.id = id)

/-- task_manager.rs, TaskManager::at: the first task with the given id. -/
def TaskManager.atId (tm : TaskManager) (id : Nat) : Option Task :=
  tm.tasks.find? (fun t => t.id = id)

/-- task_manager.rs, TaskManager::at_mut followed by a mutation: apply
`f` to the first task whose id matches, leave the rest alone. -/
def updateFirst (id : Nat) (f : Task → Task) : List Task → List Task
  | [] => []
  | t :: ts => if t.id = id then f t :: ts else t :: updateFirst id f ts

/-- task_manager.rs, TaskManager::complete_task. -/
def TaskManager.complete_task (tm : TaskManager) (id : Nat) :
    Except TaskError (String × TaskManager) :=
  match tm.atId id with
  | some t =>
    Except.ok ("Completed Task: " ++ (t.mark_completed).description,
      { tm with tasks := updateFirst id Task.mark_completed tm.tasks })
  | none => Except.error (TaskError.TaskNotFound id)

/-- task_manager.rs, TaskManager::prioritize_task. -/
def TaskManager.prioritize_task (tm : TaskManager) (id : Nat) :
    Except TaskError (String × TaskManager) :=
  match tm.atId id with
  | some t =>
    Except.ok ("Prioritized Task: " ++ (t.prio_up).description,
      { tm with tasks := updateFirst id Task.prio_up tm.tasks })
  | none => Except.error (TaskError.TaskNotFound id)

/-- task_manager.rs, TaskManager::deprioritize_task. -/
def TaskManager.deprioritize_task (tm : TaskManager) (id : Nat) :
    Except TaskError (String × TaskManager) :=
  match tm.atId id with
  | some t =>
    Except.ok ("Deprioritized Task: " ++ (t.prio_down).description,
      { tm with tasks := updateFirst id Task.prio_down tm.tasks })
  | none => Except.error (TaskError.TaskNotFound id)

/-- task_manager.rs, TaskManager::change_priority. -/
def TaskManager.change_priority (tm : TaskManager) (id : Nat) (prioritize : Bool) :
    Except TaskError (String × TaskManager) :=
  if prioritize then tm.prioritize_task id else tm.deprioritize_task id

/-- task_manager.rs, TaskManager::clear_completed_tasks: retain the
tasks not completed, return how many were dropped. -/
def TaskManager.clear_completed_tasks (tm : TaskManager) : Nat × TaskManager :=
  let initial_len := tm.tasks.length
  let kept := tm.tasks.filter (fun t => !t.completed)
  (initial_len - kept.length, { tm with tasks := kept })

/-- task_manager.rs, TaskManager::change_description. The store itself
performs no emptiness check on the new description. -/
def TaskManager.change_description (tm : TaskManager) (id : Nat) (new_description : String) :
    Except TaskError (String × TaskManager) :=
  match tm.atId id with
  | some t =>
    Except.ok ("Description of task " ++ toString id ++ " changed.\n\tOld: \""
        ++ t.description ++ "\"\n\tNew: \"" ++ new_description ++ "\"",
      { tm with tasks := updateFirst id (fun u => Task.set_description u new_description) tm.tasks })
  | none => Except.error (TaskError.TaskNotFound id)

/-- task_manager.rs, TaskManager::delete_task: remove by id identity,
not by position. -/
def TaskManager.delete_task (tm : TaskManager) (id : Nat) :
    Except TaskError (String × TaskManager) :=
  match tm.find_id id with
  | some idx =>
    Except.ok ("Deleted task ID " ++ toString id,
      { tm with tasks := tm.tasks.eraseIdx idx })
  | none => Except.error (TaskError.TaskNotFound id)

/-- The store as the caller sees it after a fallible mutation: on an
error the store keeps its previous state. -/
def runStep (tm : TaskManager) (r : Except TaskError (String × TaskManager)) : TaskManager :=
  match r with
  | Except.ok p => p.2
  | Except.error _ => tm

/-- taskmaster/main.rs, build_description: the CLI joins the words of
the description, trims, and rejects the empty result before the store
is ever called. -/
def build_description (description : List String) : Except TaskError String :=
  let desc_str := rustTrim (String.intercalate " " description)
  if !desc_str.data.isEmpty then
    Except.ok desc_str
  else
    Except.error (TaskError.Empty "Description")

/-- taskmaster/main.rs, the Commands::Change arm: build the description,
then call the store. -/
def cliChange (tm : TaskManager) (index : Nat) (description : List String) :
    Except TaskError (String × TaskManager) :=
  match build_description description with
  | Except.ok desc_str => tm.change_description index desc_str
  | Except.error e => Except.error e

/-- The ids of the tasks currently in the store, in store order. -/
def idsOf (tm : TaskManager) : List Nat :=
  tm.tasks.map (fun t => t.id)

/-- One in-memory mutating store operation, as invoked by the CLI
dispatcher (taskmaster/main.rs): every store operation except load and
save. -/
inductive MutOp where
  | add (description : String)
  | complete (id : Nat)
  | changePriority (id : Nat) (prioritize : Bool)
  | rename (id : Nat) (description : String)
  | delete (id : Nat)
  | clearCompleted
deriving DecidableEq

/-- Run one mutating operation; an add returns its new id, the fallible
operations leave the store unchanged on error. -/
def runMutOp (tm : TaskManager) : MutOp → Option Nat × TaskManager
  | MutOp.add s => ((tm.add_task s).1, (tm.add_task s).2)
  | MutOp.complete id => (none, runStep tm (tm.complete_task id))
  | MutOp.changePriority id b => (none, runStep tm (tm.change_priority id b))
  | MutOp.rename id s => (none, runStep tm (tm.change_description id s))
  | MutOp.delete id => (none, runStep tm (tm.delete_task id))
  | MutOp.clearCompleted => (none, (tm.clear_completed_tasks).2)

/-- Run a sequence of mutating operations, collecting the ids returned
by the add calls, in call order. -/
def runMutOps (tm : TaskManager) : List MutOp → List Nat × TaskManager
  | [] => ([], tm)
  | op :: ops =>
    ((runMutOp tm op).1.toList ++ (runMutOps (runMutOp tm op).2 ops).1,
      (runMutOps (runMutOp tm op).2 ops).2)

/-- Store states reachable by arbitrary call sequences: construction,
the mutating operations over arbitrary inputs, and load over arbitrary
file contents and parse outcomes (save does not change the store). -/
inductive Reachable : TaskManager → Prop where
  | new (file_path : String) : Reachable (TaskManager.new file_path)
  | mutate {tm : TaskManager} (op : MutOp) : Reachable tm → Reachable (runMutOp tm op).2
  | load {tm : TaskManager} (parse : String → Option (List Task)) (file : Option String) :
      Reachable tm → Reachable (tm.loadRun parse file)

/-- The nonzero ids of a parsed record list are pairwise distinct. -/
def GoodRecords (l : List Task) : Prop :=
  l.Pairwise (fun a b => a.id ≠ 0 → b.id ≠ 0 → a.id ≠ b.id)

/-- Store states reachable by arbitrary call sequences in which every
successfully parsed file carried records whose nonzero ids were
pairwise distinct. -/
inductive ReachableG : TaskManager → Prop where
  | new (file_path : String) : ReachableG (TaskManager.new file_path)
  | mutate {tm : TaskManager} (op : MutOp) : ReachableG tm → ReachableG (runMutOp tm op).2
  | load {tm : TaskManager} (parse : String → Option (List Task)) (file : Option String) :
      (∀ c records, file = some c → parse c = some records → GoodRecords records) →
      ReachableG tm → ReachableG (tm.loadRun parse file)

/-- The id-related store invariant: the next id is at least 1, every
task id is nonzero and below the next id, and the ids are pairwise
distinct. -/
def Inv (tm : TaskManager) : Prop :=
  1 ≤ tm.next_available_id ∧
  (∀ i ∈ idsOf tm, 0 < i ∧ i < tm.next_available_id) ∧
  (idsOf tm).Nodup

/-- Worded from the spec, for the refinement claim on the migration
pass: every task whose id is 0 is assigned a fresh id one greater than
the running maximum, processed in collection order. -/
def specMigrate (runningMax : Nat) : List Task → List Task
  | [] => []
  | t :: ts =>
    if t.id = 0 then { t with id := runningMax + 1 } :: specMigrate (runningMax + 1) ts
    else t :: specMigrate runningMax ts

/-- Worded from the spec: the highest id present among the loaded
records. -/
def specMaxId (l : List Task) : Nat :=
  l.foldl (fun m t => max m t.id) 0

/-- Number of records carrying the legacy sentinel id 0. -/
def countZeroIds (l : List Task) : Nat :=
  (l.filter (fun t => t.id = 0)).length

/-! Concrete sample data used by witnesses and counterexamples. -/

/-- A fresh store bound to a sample path. -/
def tmP : TaskManager := TaskManager.new "tasks.json"

/-- A store holding one task, id 1, description "hello". -/
def tmHello : TaskManager := (tmP.add_task "hello").2

/-- A legacy record list: one task with id 2 and two sentinel-id tasks. -/
def recsW : List Task :=
  [Task.new_task "a" 2 Priority.Medium, Task.new_task "b" 0 Priority.Low,
    Task.new_task "c" 0 Priority.High]

/-- A parse function recognising one concrete file content as `recsW`. -/
def parseW : String → Option (List Task) :=
  fun s => if s = "legacy" then some recsW else none

/-- `recsW` after the migration pass. -/
def tasksW : List Task :=
  [Task.new_task "a" 2 Priority.Medium, Task.new_task "b" 3 Priority.Low,
    Task.new_task "c" 4 Priority.High]

/-- The store that loading `recsW` produces. -/
def tmW : TaskManager :=
  { tasks := tasksW, file_path := "tasks.json", next_available_id := 5 }

/-- A serializer stand-in used for round-trip witnesses. -/
def serializeW : List Task → String := fun _ => "saved"

/-- A parse function that decodes the output of `serializeW` back to
`tasksW`. -/
def parse2W : String → Option (List Task) :=
  fun s => if s = "saved" then some tasksW else none

/-- Records with a duplicated nonzero id, as an arbitrary JSON file can
contain. -/
def dupRecs : List Task :=
  [Task.new_task "a" 1 Priority.Medium, Task.new_task "b" 1 Priority.Medium]

/-- A parse function recognising one concrete file content as `dupRecs`. -/
def dupParse : String → Option (List Task) :=
  fun s => if s = "dup" then some dupRecs else none

/-- A parse function that fails on every content. -/
def noParse : String → Option (List Task) := fun _ => none

/-- Three tasks for the clear-completed example: A and C completed, B
not. -/
def taskA : Task := { id := 1, description := "A", completed := true, priority := Priority.Medium }

/-- See `taskA`. -/
def taskB : Task := { id := 2, description := "B", completed := false, priority := Priority.Medium }

/-- See `taskA`. -/
def taskC : Task := { id := 3, description := "C", completed := true, priority := Priority.Medium }

/-- The store holding the tasks A, B, C. -/
def tmABC : TaskManager :=
  { tasks := [taskA, taskB, taskC], file_path := "tasks.json", next_available_id := 4 }

/-! Helper lemmas. -/

theorem le_runningMaxId (l : List Task) : ∀ m, m ≤ runningMaxId m l := by
  induction l with
  | nil => intro m; exact Nat.le_refl m
  | cons t ts ih =>
    intro m
    have h1 : m ≤ (if t.id > m then t.id else m) := by
      split
      · exact Nat.le_of_lt (by assumption)
      · exact Nat.le_refl m
    exact Nat.le_trans h1 (ih _)

theorem mem_le_runningMaxId (l : List Task) :
    ∀ m, ∀ t ∈ l, t.id ≤ runningMaxId m l := by
  induction l with
  | nil => intro m t ht; simp at ht
  | cons u us ih =>
    intro m t ht
    rcases List.mem_cons.mp ht with h | h
    · subst h
      have h1 : t.id ≤ (if t.id > m then t.id else m) := by
        split
        · exact Nat.le_refl _
        · exact Nat.le_of_not_lt (by assumption)
      exact Nat.le_trans h1 (le_runningMaxId us _)
    · exact ih _ t h

theorem runningMaxId_eq_fold_max (l : List Task) :
    ∀ m, runningMaxId m l = l.foldl (fun acc t => max acc t.id) m := by
  induction l with
  | nil => intro m; rfl
  | cons t ts ih =>
    intro m
    show runningMaxId (if t.id > m then t.id else m) ts = _
    rw [ih]
    have h : (if t.id > m then t.id else m) = max m t.id := by
      rw [Nat.max_def]
      split <;> split <;> omega
    rw [h]
    rfl

theorem runningMaxId_eq_specMaxId (l : List Task) :
    runningMaxId 0 l = specMaxId l :=
  runningMaxId_eq_fold_max l 0

theorem assignIds_count (l : List Task) :
    ∀ m, (assignIds m l).1 = m + countZeroIds l := by
  induction l with
  | nil => intro m; simp [assignIds, countZeroIds]
  | cons t ts ih =>
    intro m
    by_cases h : t.id = 0
    · have hc : countZeroIds (t :: ts) = countZeroIds ts + 1 := by
        simp [countZeroIds, List.filter_cons, h]
      simp only [assignIds, if_pos h]
      rw [ih (m + 1), hc]
      omega
    · have hc : countZeroIds (t :: ts) = countZeroIds ts := by
        simp [countZeroIds, List.filter_cons, h]
      simp only [assignIds, if_neg h]
      rw [ih m, hc]

theorem assignIds_eq_specMigrate (l : List Task) :
    ∀ m, (assignIds m l).2 = specMigrate m l := by
  induction l with
  | nil => intro m; rfl
  | cons t ts ih =>
    intro m
    by_cases h : t.id = 0
    · simp [assignIds, specMigrate, if_pos h, ih, Task.set_id]
    · simp [assignIds, specMigrate, if_neg h, ih]

theorem assignIds_no_zeros (l : List Task) :
    ∀ m, (∀ t ∈ l, t.id ≠ 0) → assignIds m l = (m, l) := by
  induction l with
  | nil => intro m _; rfl
  | cons t ts ih =>
    intro m h
    have ht : t.id ≠ 0 := h t (List.mem_cons_self t ts)
    simp only [assignIds, if_neg ht]
    rw [ih m (fun u hu => h u (List.mem_cons_of_mem t hu))]

theorem assignIds_bounds (l : List Task) :
    ∀ m, (∀ t ∈ l, t.id ≤ m) →
      m ≤ (assignIds m l).1 ∧
      (∀ u ∈ (assignIds m l).2, 0 < u.id ∧ u.id ≤ (assignIds m l).1) := by
  induction l with
  | nil => intro m _; exact ⟨Nat.le_refl m, by simp [assignIds]⟩
  | cons t ts ih =>
    intro m h
    have htail : ∀ u ∈ ts, u.id ≤ m := fun u hu => h u (List.mem_cons_of_mem t hu)
    by_cases ht : t.id = 0
    · have htail1 : ∀ u ∈ ts, u.id ≤ m + 1 :=
        fun u hu => Nat.le_succ_of_le (htail u hu)
      obtain ⟨A, B⟩ := ih (m + 1) htail1
      refine ⟨Nat.le_trans (Nat.le_succ m) ?_, ?_⟩
      · simpa [assignIds, if_pos ht] using A
      · intro u hu
        simp only [assignIds, if_pos ht, List.mem_cons] at hu
        rcases hu with h1 | h1
        · subst h1
          simp only [assignIds, if_pos ht, Task.set_id]
          exact ⟨Nat.succ_pos m, A⟩
        · simpa [assignIds, if_pos ht] using B u h1
    · obtain ⟨A, B⟩ := ih m htail
      refine ⟨?_, ?_⟩
      · simpa [assignIds, if_neg ht] using A
      · intro u hu
        simp only [assignIds, if_neg ht, List.mem_cons] at hu
        rcases hu with h1 | h1
        · subst h1
          simp only [assignIds, if_neg ht]
          exact ⟨Nat.pos_of_ne_zero ht, Nat.le_trans (h u (List.mem_cons_self u ts)) A⟩
        · simpa [assignIds, if_neg ht] using B u h1

theorem assignIds_from_old (l : List Task) :
    ∀ m, ∀ u ∈ (assignIds m l).2, u.id ≤ m → ∃ v ∈ l, v.id = u.id ∧ v.id ≠ 0 := by
  induction l with
  | nil => intro m u hu; simp [assignIds] at hu
  | cons t ts ih =>
    intro m u hu hle
    by_cases ht : t.id = 0
    · simp only [assignIds, if_pos ht, List.mem_cons] at hu
      rcases hu with h1 | h1
      · subst h1
        simp only [Task.set_id] at hle
        omega
      · obtain ⟨v, hv, hve, hvz⟩ := ih (m + 1) u h1 (Nat.le_succ_of_le hle)
        exact ⟨v, List.mem_cons_of_mem t hv, hve, hvz⟩
    · simp only [assignIds, if_neg ht, List.mem_cons] at hu
      rcases hu with h1 | h1
      · subst h1
        exact ⟨u, List.mem_cons_self u ts, rfl, ht⟩
      · obtain ⟨v, hv, hve, hvz⟩ := ih m u h1 hle
        exact ⟨v, List.mem_cons_of_mem t hv, hve, hvz⟩

theorem assignIds_nodup (l : List Task) :
    ∀ m, (∀ t ∈ l, t.id ≤ m) → GoodRecords l →
      ((assignIds m l).2.map (fun t => t.id)).Nodup := by
  induction l with
  | nil => intro m _ _; simp [assignIds]
  | cons t ts ih =>
    intro m h hg
    rw [GoodRecords, List.pairwise_cons] at hg
    obtain ⟨hrel, hg2⟩ := hg
    have htail : ∀ u ∈ ts, u.id ≤ m := fun u hu => h u (List.mem_cons_of_mem t hu)
    by_cases ht : t.id = 0
    · have htail1 : ∀ u ∈ ts, u.id ≤ m + 1 :=
        fun u hu => Nat.le_succ_of_le (htail u hu)
      have hn := ih (m + 1) htail1 hg2
      simp only [assignIds, if_pos ht, List.map_cons, List.nodup_cons, Task.set_id]
      refine ⟨?_, hn⟩
      intro hmem
      obtain ⟨u, hu, hue⟩ := List.mem_map.mp hmem
      obtain ⟨v, hv, hve, _⟩ :=
        assignIds_from_old ts (m + 1) u hu (Nat.le_of_eq hue)
      have := htail v hv
      omega
    · have hn := ih m htail hg2
      simp only [assignIds, if_neg ht, List.map_cons, List.nodup_cons]
      refine ⟨?_, hn⟩
      intro hmem
      obtain ⟨u, hu, hue⟩ := List.mem_map.mp hmem
      have h1 : t.id ≤ m := h t (List.mem_cons_self t ts)
      obtain ⟨v, hv, hve, hvz⟩ := assignIds_from_old ts m u hu (by omega)
      have h2 := hrel v hv ht hvz
      omega

theorem updateFirst_map_id (id : Nat) (f : Task → Task)
    (hf : ∀ t, (f t).id = t.id) :
    ∀ l : List Task, (updateFirst id f l).map (fun t => t.id) = l.map (fun t => t.id) := by
  intro l
  induction l with
  | nil => rfl
  | cons t ts ih =>
    by_cases h : t.id = id
    · simp [updateFirst, if_pos h, hf]
    · simp [updateFirst, if_neg h, ih]

theorem atId_eq_none (tm : TaskManager) (id : Nat)
    (h : ∀ t ∈ tm.tasks, t.id ≠ id) : tm.atId id = none := by
  apply List.find?_eq_none.mpr
  intro t ht
  simp [h t ht]

theorem find_id_eq_none (tm : TaskManager) (id : Nat)
    (h : ∀ t ∈ tm.tasks, t.id ≠ id) : tm.find_id id = none := by
  rw [TaskManager.find_id, List.findIdx?_eq_none_iff]
  intro t ht
  simp [h t ht]

theorem complete_run_facts (tm : TaskManager) (id : Nat) :
    idsOf (runStep tm (tm.complete_task id)) = idsOf tm ∧
    (runStep tm (tm.complete_task id)).next_available_id = tm.next_available_id := by
  cases h : tm.atId id <;>
    simp [TaskManager.complete_task, h, runStep, idsOf,
      updateFirst_map_id id Task.mark_completed (fun t => rfl)]

theorem prioritize_run_facts (tm : TaskManager) (id : Nat) :
    idsOf (runStep tm (tm.prioritize_task id)) = idsOf tm ∧
    (runStep tm (tm.prioritize_task id)).next_available_id = tm.next_available_id := by
  cases h : tm.atId id <;>
    simp [TaskManager.prioritize_task, h, runStep, idsOf,
      updateFirst_map_id id Task.prio_up (fun t => rfl)]

theorem deprioritize_run_facts (tm : TaskManager) (id : Nat) :
    idsOf (runStep tm (tm.deprioritize_task id)) = idsOf tm ∧
    (runStep tm (tm.deprioritize_task id)).next_available_id = tm.next_available_id := by
  cases h : tm.atId id <;>
    simp [TaskManager.deprioritize_task, h, runStep, idsOf,
      updateFirst_map_id id Task.prio_down (fun t => rfl)]

theorem change_priority_run_facts (tm : TaskManager) (id : Nat) (b : Bool) :
    idsOf (runStep tm (tm.change_priority id b)) = idsOf tm ∧
    (runStep tm (tm.change_priority id b)).next_available_id = tm.next_available_id := by
  cases b with
  | true =>
    simpa [TaskManager.change_priority] using prioritize_run_facts tm id
  | false =>
    simpa [TaskManager.change_priority] using deprioritize_run_facts tm id

theorem rename_run_facts (tm : TaskManager) (id : Nat) (d : String) :
    idsOf (runStep tm (tm.change_description id d)) = idsOf tm ∧
    (runStep tm (tm.change_description id d)).next_available_id = tm.next_available_id := by
  cases h : tm.atId id <;>
    simp [TaskManager.change_description, h, runStep, idsOf,
      updateFirst_map_id id (fun u => Task.set_description u d) (fun t => rfl)]

theorem delete_run_facts (tm : TaskManager) (id : Nat) :
    List.Sublist (idsOf (runStep tm (tm.delete_task id))) (idsOf tm) ∧
    (runStep tm (tm.delete_task id)).next_available_id = tm.next_available_id := by
  cases h : tm.find_id id with
  | none => simp [TaskManager.delete_task, h, runStep]
  | some idx =>
    refine ⟨?_, by simp [TaskManager.delete_task, h, runStep]⟩
    simp only [TaskManager.delete_task, h, runStep, idsOf]
    exact (List.eraseIdx_sublist tm.tasks idx).map (fun t => t.id)

theorem clear_run_facts (tm : TaskManager) :
    List.Sublist (idsOf (tm.clear_completed_tasks).2) (idsOf tm) ∧
    (tm.clear_completed_tasks).2.next_available_id = tm.next_available_id := by
  refine ⟨?_, rfl⟩
  simp only [TaskManager.clear_completed_tasks, idsOf]
  exact (List.filter_sublist tm.tasks).map (fun t => t.id)

theorem add_facts (tm : TaskManager) (s : String) :
    idsOf (tm.add_task s).2 = idsOf tm ++ [tm.next_available_id] ∧
    (tm.add_task s).2.next_available_id = tm.next_available_id + 1 ∧
    (tm.add_task s).1 = tm.next_available_id := by
  refine ⟨?_, rfl, rfl⟩
  simp [idsOf, TaskManager.add_task, Task.new_task]

/-- Every mutating operation either returns no id and keeps the next id,
or is an add: it returns the current next id and bumps the counter. -/
theorem runMutOp_cases (tm : TaskManager) (op : MutOp) :
    ((runMutOp tm op).1 = none ∧
      (runMutOp tm op).2.next_available_id = tm.next_available_id) ∨
    ((runMutOp tm op).1 = some tm.next_available_id ∧
      (runMutOp tm op).2.next_available_id = tm.next_available_id + 1) := by
  cases op with
  | add s => exact Or.inr ⟨rfl, rfl⟩
  | complete id => exact Or.inl ⟨rfl, (complete_run_facts tm id).2⟩
  | changePriority id b => exact Or.inl ⟨rfl, (change_priority_run_facts tm id b).2⟩
  | rename id d => exact Or.inl ⟨rfl, (rename_run_facts tm id d).2⟩
  | delete id => exact Or.inl ⟨rfl, (delete_run_facts tm id).2⟩
  | clearCompleted => exact Or.inl ⟨rfl, (clear_run_facts tm).2⟩

theorem inv_of_ids_next (tm tm2 : TaskManager) (h : Inv tm)
    (hids : List.Sublist (idsOf tm2) (idsOf tm))
    (hnext : tm2.next_available_id = tm.next_available_id) : Inv tm2 := by
  obtain ⟨h1, h2, h3⟩ := h
  refine ⟨hnext ▸ h1, fun i hi => hnext ▸ h2 i (hids.subset hi), hids.nodup h3⟩

theorem inv_add (tm : TaskManager) (s : String) (h : Inv tm) :
    Inv (tm.add_task s).2 := by
  obtain ⟨h1, h2, h3⟩ := h
  obtain ⟨hids, hnext, _⟩ := add_facts tm s
  refine ⟨?_, ?_, ?_⟩
  · rw [hnext]; omega
  · intro i hi
    rw [hids] at hi
    rw [hnext]
    rcases List.mem_append.mp hi with h4 | h4
    · have := h2 i h4
      omega
    · simp at h4
      omega
  · rw [hids]
    refine List.Nodup.append h3 (List.nodup_singleton _) ?_
    intro i hi hi2
    simp at hi2
    have := h2 i hi
    omega

theorem inv_runMutOp (tm : TaskManager) (op : MutOp) (h : Inv tm) :
    Inv (runMutOp tm op).2 := by
  cases op with
  | add s => exact inv_add tm s h
  | complete id =>
    exact inv_of_ids_next tm _ h ((complete_run_facts tm id).1 ▸ List.Sublist.refl _)
      (complete_run_facts tm id).2
  | changePriority id b =>
    exact inv_of_ids_next tm _ h
      ((change_priority_run_facts tm id b).1 ▸ List.Sublist.refl _)
      (change_priority_run_facts tm id b).2
  | rename id d =>
    exact inv_of_ids_next tm _ h ((rename_run_facts tm id d).1 ▸ List.Sublist.refl _)
      (rename_run_facts tm id d).2
  | delete id =>
    exact inv_of_ids_next tm _ h (delete_run_facts tm id).1 (delete_run_facts tm id).2
  | clearCompleted =>
    exact inv_of_ids_next tm _ h (clear_run_facts tm).1 (clear_run_facts tm).2

theorem load_tasks_missing (parse : String → Option (List Task)) (tm : TaskManager) :
    tm.load_tasks parse none =
      Except.ok { tm with tasks := [], next_available_id := 1 } := rfl

theorem load_tasks_blank (parse : String → Option (List Task)) (tm : TaskManager)
    (contents : String) (he : (rustTrim contents).data.isEmpty = true) :
    tm.load_tasks parse (some contents) =
      Except.ok { tm with tasks := [], next_available_id := 1 } := by
  simp [TaskManager.load_tasks, he]

theorem load_tasks_parse_fail (parse : String → Option (List Task)) (tm : TaskManager)
    (contents : String) (he : (rustTrim contents).data.isEmpty = false)
    (hp : parse contents = none) :
    tm.load_tasks parse (some contents) = Except.error TaskError.Json := by
  simp [TaskManager.load_tasks, he, hp]

theorem load_tasks_parsed (parse : String → Option (List Task)) (tm : TaskManager)
    (contents : String) (records : List Task)
    (he : (rustTrim contents).data.isEmpty = false)
    (hp : parse contents = some records) :
    tm.load_tasks parse (some contents) =
      Except.ok { tm with
        tasks := (assignIds (runningMaxId 0 records) records).2,
        next_available_id := (assignIds (runningMaxId 0 records) records).1 + 1 } := by
  simp [TaskManager.load_tasks, he, hp]

theorem inv_reset (tm : TaskManager) :
    Inv { tm with tasks := [], next_available_id := 1 } :=
  ⟨Nat.le_refl 1, by simp [idsOf], by simp [idsOf]⟩

theorem inv_parsed (tm : TaskManager) (records : List Task)
    (hg : GoodRecords records) :
    Inv { tm with
      tasks := (assignIds (runningMaxId 0 records) records).2,
      next_available_id := (assignIds (runningMaxId 0 records) records).1 + 1 } := by
  have hle : ∀ t ∈ records, t.id ≤ runningMaxId 0 records :=
    mem_le_runningMaxId records 0
  obtain ⟨hA, hB⟩ := assignIds_bounds records (runningMaxId 0 records) hle
  have hnd := assignIds_nodup records (runningMaxId 0 records) hle hg
  refine ⟨Nat.le_add_left 1 _, ?_, hnd⟩
  intro i hi
  dsimp only [idsOf] at hi
  obtain ⟨u, hu, hue⟩ := List.mem_map.mp hi
  have := hB u hu
  show 0 < i ∧ i < (assignIds (runningMaxId 0 records) records).1 + 1
  omega

theorem inv_load (parse : String → Option (List Task)) (tm tm2 : TaskManager)
    (file : Option String)
    (hok : tm.load_tasks parse file = Except.ok tm2)
    (hg : ∀ c records, file = some c → parse c = some records → GoodRecords records) :
    Inv tm2 := by
  cases file with
  | none =>
    rw [load_tasks_missing, Except.ok.injEq] at hok
    exact hok ▸ inv_reset tm
  | some contents =>
    cases he : (rustTrim contents).data.isEmpty with
    | true =>
      rw [load_tasks_blank parse tm contents he, Except.ok.injEq] at hok
      exact hok ▸ inv_reset tm
    | false =>
      cases hp : parse contents with
      | none =>
        rw [load_tasks_parse_fail parse tm contents he hp] at hok
        exact absurd hok (by simp)
      | some records =>
        rw [load_tasks_parsed parse tm contents records he hp, Except.ok.injEq] at hok
        exact hok ▸ inv_parsed tm records (hg contents records rfl hp)

theorem load_nonzero_ids (parse : String → Option (List Task)) (tm tm2 : TaskManager)
    (file : Option String)
    (hok : tm.load_tasks parse file = Except.ok tm2) :
    ∀ t ∈ tm2.tasks, t.id ≠ 0 := by
  cases file with
  | none =>
    rw [load_tasks_missing, Except.ok.injEq] at hok
    rw [← hok]
    simp
  | some contents =>
    cases he : (rustTrim contents).data.isEmpty with
    | true =>
      rw [load_tasks_blank parse tm contents he, Except.ok.injEq] at hok
      rw [← hok]
      simp
    | false =>
      cases hp : parse contents with
      | none =>
        rw [load_tasks_parse_fail parse tm contents he hp] at hok
        exact absurd hok (by simp)
      | some records =>
        rw [load_tasks_parsed parse tm contents records he hp, Except.ok.injEq] at hok
        rw [← hok]
        intro t ht
        dsimp only at ht
        obtain ⟨_, hB⟩ := assignIds_bounds records (runningMaxId 0 records)
          (mem_le_runningMaxId records 0)
        have := (hB t ht).1
        omega

theorem reachableG_inv (tm : TaskManager) (h : ReachableG tm) : Inv tm := by
  induction h with
  | new fp =>
    exact ⟨Nat.le_refl 1, by simp [idsOf, TaskManager.new], by simp [idsOf, TaskManager.new]⟩
  | mutate op _ ih => exact inv_runMutOp _ op ih
  | load parse file hg hr ih =>
    rename_i tm0
    cases hok : tm0.load_tasks parse file with
    | ok tm2 =>
      have he : tm0.loadRun parse file = tm2 := by
        simp [TaskManager.loadRun, hok]
      rw [he]
      exact inv_load parse tm0 tm2 file hok hg
    | error e =>
      have he : tm0.loadRun parse file = tm0 := by
        simp [TaskManager.loadRun, hok]
      rw [he]
      exact ih

/-- Along any sequence of mutating operations, the next id never
decreases, every returned id lies between the starting next id and the
final next id, and the returned ids are strictly increasing. -/
theorem runMutOps_spec (ops : List MutOp) :
    ∀ tm : TaskManager,
      tm.next_available_id ≤ (runMutOps tm ops).2.next_available_id ∧
      (∀ i ∈ (runMutOps tm ops).1, tm.next_available_id ≤ i ∧
        i < (runMutOps tm ops).2.next_available_id) ∧
      (runMutOps tm ops).1.Pairwise (· < ·) := by
  induction ops with
  | nil =>
    intro tm
    exact ⟨Nat.le_refl _, by simp [runMutOps], by simp [runMutOps]⟩
  | cons op ops ih =>
    intro tm
    obtain ⟨ihA, ihB, ihC⟩ := ih (runMutOp tm op).2
    have hstep : runMutOps tm (op :: ops) =
        ((runMutOp tm op).1.toList ++ (runMutOps (runMutOp tm op).2 ops).1,
          (runMutOps (runMutOp tm op).2 ops).2) := rfl
    rcases runMutOp_cases tm op with ⟨hret, hnext⟩ | ⟨hret, hnext⟩
    · rw [hstep, hret]
      simp only [Option.toList_none, List.nil_append]
      refine ⟨hnext ▸ ihA, ?_, ihC⟩
      intro i hi
      obtain ⟨hi1, hi2⟩ := ihB i hi
      exact ⟨by omega, hi2⟩
    · rw [hstep, hret]
      simp only [Option.toList_some, List.singleton_append]
      refine ⟨by omega, ?_, ?_⟩
      · intro i hi
        rcases List.mem_cons.mp hi with h1 | h1
        · subst h1
          exact ⟨Nat.le_refl _, by omega⟩
        · obtain ⟨hi1, hi2⟩ := ihB i h1
          exact ⟨by omega, hi2⟩
      · rw [List.pairwise_cons]
        refine ⟨?_, ihC⟩
        intro j hj
        have := (ihB j hj).1
        omega

theorem length_filter_completed (l : List Task) :
    (l.filter (fun t => t.completed)).length +
      (l.filter (fun t => !t.completed)).length = l.length := by
  induction l with
  | nil => rfl
  | cons t ts ih =>
    by_cases h : t.completed <;> simp [List.filter_cons, h] <;> omega

/-! The claims. -/

/-- C1: after a successful parse of a nonempty file, load assigns to
each task whose id is 0 a fresh id one greater than the running maximum,
in collection order starting from the maximum id among the loaded
records, sets the next id to one past the final maximum, and a
subsequent add returns exactly that next id. -/
theorem C1_load_migration (parse : String → Option (List Task)) (tm : TaskManager)
    (contents s : String) (records : List Task)
    (he : (rustTrim contents).data.isEmpty = false)
    (hp : parse contents = some records) :
    tm.load_tasks parse (some contents) =
      Except.ok { tm with
        tasks := specMigrate (specMaxId records) records,
        next_available_id := specMaxId records + countZeroIds records + 1 } ∧
    (({ tm with
        tasks := specMigrate (specMaxId records) records,
        next_available_id := specMaxId records + countZeroIds records + 1 } :
        TaskManager).add_task s).1 = specMaxId records + countZeroIds records + 1 := by
  have h2 : runningMaxId 0 records = specMaxId records :=
    runningMaxId_eq_specMaxId records
  have h3 : (assignIds (runningMaxId 0 records) records).2 =
      specMigrate (specMaxId records) records := by
    rw [h2]
    exact assignIds_eq_specMigrate records (specMaxId records)
  have h4 : (assignIds (runningMaxId 0 records) records).1 =
      specMaxId records + countZeroIds records := by
    rw [h2]
    exact assignIds_count records (specMaxId records)
  refine ⟨?_, rfl⟩
  rw [load_tasks_parsed parse tm contents records he hp, h3, h4]

/-- Witness for C1 at a concrete legacy file: ids 2, 0, 0 migrate to
2, 3, 4 and the next id becomes 5. -/
theorem C1_load_migration_witness :
    tmP.load_tasks parseW (some "legacy") =
      Except.ok { tmP with
        tasks := specMigrate (specMaxId recsW) recsW,
        next_available_id := specMaxId recsW + countZeroIds recsW + 1 } ∧
    (({ tmP with
        tasks := specMigrate (specMaxId recsW) recsW,
        next_available_id := specMaxId recsW + countZeroIds recsW + 1 } :
        TaskManager).add_task "next").1 = specMaxId recsW + countZeroIds recsW + 1 :=
  C1_load_migration parseW tmP "legacy" "next" recsW (by decide) (by decide)

/-- C2 counterexample: the claim quantifies over arbitrary file
contents, but load performs no duplicate-id check, so loading a file
whose records carry the same nonzero id twice yields a reachable store
with two tasks of equal id. -/
theorem C2_counterexample :
    Reachable (TaskManager.loadRun dupParse tmP (some "dup")) ∧
    ¬ (idsOf (TaskManager.loadRun dupParse tmP (some "dup"))).Nodup :=
  ⟨Reachable.load dupParse (some "dup") (Reachable.new "tasks.json"), by decide⟩

/-- C2 amended: in every store state reachable by arbitrary operation
sequences in which every successfully parsed file had pairwise-distinct
nonzero record ids, the task ids are pairwise distinct and no task
carries the sentinel id 0. -/
theorem C2_distinct_ids (tm : TaskManager) (h : ReachableG tm) :
    (idsOf tm).Nodup ∧ ∀ t ∈ tm.tasks, t.id ≠ 0 := by
  obtain ⟨h1, h2, h3⟩ := reachableG_inv tm h
  refine ⟨h3, ?_⟩
  intro t ht
  have hm : t.id ∈ idsOf tm := List.mem_map.mpr ⟨t, ht, rfl⟩
  have := h2 _ hm
  omega

/-- Witness for C2 at a concrete reachable state holding one task. -/
theorem C2_distinct_ids_witness :
    (idsOf (runMutOp tmP (MutOp.add "x")).2).Nodup ∧
    ∀ t ∈ (runMutOp tmP (MutOp.add "x")).2.tasks, t.id ≠ 0 :=
  C2_distinct_ids _ (ReachableG.mutate (MutOp.add "x") (ReachableG.new "tasks.json"))

/-- C3: along any sequence of mutating operations (adds interleaved with
deletes and the other mutations), the ids returned by the add calls are
strictly increasing, hence never repeat, and the next-id counter never
decreases. -/
theorem C3_ids_increase (tm : TaskManager) (ops : List MutOp) :
    (runMutOps tm ops).1.Pairwise (· < ·) ∧
    (runMutOps tm ops).1.Nodup ∧
    tm.next_available_id ≤ (runMutOps tm ops).2.next_available_id := by
  obtain ⟨hA, hB, hC⟩ := runMutOps_spec ops tm
  exact ⟨hC, hC.imp Nat.ne_of_lt, hA⟩

/-- C4: starting from a state produced by a successful load, saving and
loading again (with the serializer and parser related as serde_json
guarantees: the written string parses back to the same records and is
not blank) reproduces the identical task sequence. -/
theorem C4_save_load_roundtrip (parse parse2 : String → Option (List Task))
    (serialize : List Task → String) (tm0 tm : TaskManager) (file : Option String)
    (hload : tm0.load_tasks parse file = Except.ok tm)
    (hser : parse2 (tm.save_tasks serialize) = some tm.tasks)
    (hne : (rustTrim (tm.save_tasks serialize)).data.isEmpty = false) :
    (TaskManager.loadRun parse2 tm (some (tm.save_tasks serialize))).tasks = tm.tasks := by
  have hz : ∀ t ∈ tm.tasks, t.id ≠ 0 := load_nonzero_ids parse tm0 tm file hload
  have h1 := load_tasks_parsed parse2 tm (tm.save_tasks serialize) tm.tasks hne hser
  have h2 : assignIds (runningMaxId 0 tm.tasks) tm.tasks =
      (runningMaxId 0 tm.tasks, tm.tasks) :=
    assignIds_no_zeros tm.tasks (runningMaxId 0 tm.tasks) hz
  have h3 : TaskManager.loadRun parse2 tm (some (tm.save_tasks serialize)) =
      { tm with
        tasks := (assignIds (runningMaxId 0 tm.tasks) tm.tasks).2,
        next_available_id := (assignIds (runningMaxId 0 tm.tasks) tm.tasks).1 + 1 } := by
    simp [TaskManager.loadRun, h1]
  rw [h3]
  show (assignIds (runningMaxId 0 tm.tasks) tm.tasks).2 = tm.tasks
  rw [h2]

/-- Witness for C4 at a concrete loaded store and a serializer/parser
pair that round-trips it. -/
theorem C4_save_load_roundtrip_witness :
    (TaskManager.loadRun parse2W tmW (some (tmW.save_tasks serializeW))).tasks = tmW.tasks :=
  C4_save_load_roundtrip parseW parse2W serializeW tmP tmW (some "legacy")
    rfl rfl (by decide)

/-- C5: every fallible mutation (complete, change priority in either
direction, rename, delete) on an id no task carries signals
TaskNotFound with that id and leaves the store unchanged. -/
theorem C5_not_found (tm : TaskManager) (id : Nat) (d : String) (b : Bool)
    (h : ∀ t ∈ tm.tasks, t.id ≠ id) :
    tm.complete_task id = Except.error (TaskError.TaskNotFound id) ∧
    tm.change_priority id b = Except.error (TaskError.TaskNotFound id) ∧
    tm.change_description id d = Except.error (TaskError.TaskNotFound id) ∧
    tm.delete_task id = Except.error (TaskError.TaskNotFound id) ∧
    runStep tm (tm.complete_task id) = tm ∧
    runStep tm (tm.change_priority id b) = tm ∧
    runStep tm (tm.change_description id d) = tm ∧
    runStep tm (tm.delete_task id) = tm := by
  have ha : tm.atId id = none := atId_eq_none tm id h
  have hf : tm.find_id id = none := find_id_eq_none tm id h
  have h1 : tm.complete_task id = Except.error (TaskError.TaskNotFound id) := by
    simp [TaskManager.complete_task, ha]
  have h2 : tm.change_priority id b = Except.error (TaskError.TaskNotFound id) := by
    cases b <;> simp [TaskManager.change_priority, TaskManager.prioritize_task,
      TaskManager.deprioritize_task, ha]
  have h3 : tm.change_description id d = Except.error (TaskError.TaskNotFound id) := by
    simp [TaskManager.change_description, ha]
  have h4 : tm.delete_task id = Except.error (TaskError.TaskNotFound id) := by
    simp [TaskManager.delete_task, hf]
  exact ⟨h1, h2, h3, h4, by simp [runStep, h1], by simp [runStep, h2],
    by simp [runStep, h3], by simp [runStep, h4]⟩

/-- Witness for C5: a store holding only id 1, queried at id 2. -/
theorem C5_not_found_witness :
    tmHello.complete_task 2 = Except.error (TaskError.TaskNotFound 2) ∧
    tmHello.change_priority 2 true = Except.error (TaskError.TaskNotFound 2) ∧
    tmHello.change_description 2 "x" = Except.error (TaskError.TaskNotFound 2) ∧
    tmHello.delete_task 2 = Except.error (TaskError.TaskNotFound 2) ∧
    runStep tmHello (tmHello.complete_task 2) = tmHello ∧
    runStep tmHello (tmHello.change_priority 2 true) = tmHello ∧
    runStep tmHello (tmHello.change_description 2 "x") = tmHello ∧
    runStep tmHello (tmHello.delete_task 2) = tmHello :=
  C5_not_found tmHello 2 "x" true (by decide)

/-- C6 counterexample: the store-level rename does not reject the empty
string; on a store holding task 1 with description "hello" it succeeds
and overwrites the description with the empty string. -/
theorem C6_counterexample :
    tmHello.change_description 1 "" =
      Except.ok ("Description of task 1 changed.\n\tOld: \"hello\"\n\tNew: \"\"",
        { tasks := [{ id := 1, description := "", completed := false,
                      priority := Priority.Medium }],
          file_path := "tasks.json", next_available_id := 2 }) := rfl

/-- C6 amended: the empty-description rejection lives in the calling
layer: for any rename whose description words trim to the empty string,
the CLI pipeline (build_description before change_description) signals
Empty "Description" and the store is unchanged; the store operation
itself is never invoked with it. -/
theorem C6_empty_rename_rejected (tm : TaskManager) (index : Nat) (ds : List String)
    (h : (rustTrim (String.intercalate " " ds)).data.isEmpty = true) :
    cliChange tm index ds = Except.error (TaskError.Empty "Description") ∧
    runStep tm (cliChange tm index ds) = tm := by
  have hb : build_description ds = Except.error (TaskError.Empty "Description") := by
    simp [build_description, h]
  refine ⟨?_, ?_⟩ <;> simp [cliChange, hb, runStep]

/-- Witness for C6: renaming task 1 to the empty string through the CLI
pipeline. -/
theorem C6_empty_rename_rejected_witness :
    cliChange tmHello 1 [""] = Except.error (TaskError.Empty "Description") ∧
    runStep tmHello (cliChange tmHello 1 [""]) = tmHello :=
  C6_empty_rename_rejected tmHello 1 [""] (by decide)

/-- C7: load of a missing file and load of blank content both succeed
with an empty collection and next id 1; content that fails to parse
makes load signal the malformed-data (Json) error. -/
theorem C7_load_edge_cases (parse : String → Option (List Task)) (tm : TaskManager)
    (blank bad : String)
    (hb : (rustTrim blank).data.isEmpty = true)
    (hnb : (rustTrim bad).data.isEmpty = false)
    (hpb : parse bad = none) :
    tm.load_tasks parse none =
      Except.ok { tm with tasks := [], next_available_id := 1 } ∧
    tm.load_tasks parse (some blank) =
      Except.ok { tm with tasks := [], next_available_id := 1 } ∧
    tm.load_tasks parse (some bad) = Except.error TaskError.Json :=
  ⟨load_tasks_missing parse tm, load_tasks_blank parse tm blank hb,
    load_tasks_parse_fail parse tm bad hnb hpb⟩

/-- Witness for C7 with whitespace content and an unparseable content. -/
theorem C7_load_edge_cases_witness :
    tmP.load_tasks noParse none =
      Except.ok { tmP with tasks := [], next_available_id := 1 } ∧
    tmP.load_tasks noParse (some "  ") =
      Except.ok { tmP with tasks := [], next_available_id := 1 } ∧
    tmP.load_tasks noParse (some "oops") = Except.error TaskError.Json :=
  C7_load_edge_cases noParse tmP "  " "oops" (by decide) (by decide) rfl

/-- C8: clearCompleted removes exactly the completed tasks, the
survivors keep their relative order (the result is the order-preserving
filter, a sublist of the original), the returned count is the number of
completed tasks, and on the collection A(completed), B(not),
C(completed) it removes A and C, returns 2 and leaves B. -/
theorem C8_clear_completed (tm : TaskManager) :
    (tm.clear_completed_tasks).2.tasks = tm.tasks.filter (fun t => !t.completed) ∧
    List.Sublist (tm.clear_completed_tasks).2.tasks tm.tasks ∧
    (tm.clear_completed_tasks).1 = (tm.tasks.filter (fun t => t.completed)).length ∧
    (tm.clear_completed_tasks).2.next_available_id = tm.next_available_id ∧
    (tmABC.clear_completed_tasks).1 = 2 ∧
    (tmABC.clear_completed_tasks).2.tasks = [taskB] := by
  refine ⟨rfl, List.filter_sublist tm.tasks, ?_, rfl, by decide, by decide⟩
  show tm.tasks.length - (tm.tasks.filter (fun t => !t.completed)).length =
    (tm.tasks.filter (fun t => t.completed)).length
  have := length_filter_completed tm.tasks
  omega

/-- C9 counterexample: save truncates the backing file in place before
writing (File::create, then write_all), so with previous content
"[old]" and new serialized content "[new]" the empty file is an
observable intermediate state that is neither the old nor the complete
new content: a concurrent reader can observe a partially written
file. -/
theorem C9_counterexample :
    some "" ∈ observableContents (some "[old]")
      (TaskManager.save_ops (fun _ => "[new]") tmHello) ∧
    some "" ≠ some "[old]" ∧
    some "" ≠ some "[new]" ∧
    List.getLast? (observableContents (some "[old]")
      (TaskManager.save_ops (fun _ => "[new]") tmHello)) = some (some "[new]") := by
  decide

/-- C9 amended: save overwrites the backing location in place, not via a
temporary file and rename: the observable file contents during a save
are exactly the previous content, then the truncated empty file, then
the full serialized content; the final content is the full
serialization, but the truncated intermediate state is observable. -/
theorem C9_save_in_place (serialize : List Task → String) (tm : TaskManager)
    (init : Option String) :
    observableContents init (tm.save_ops serialize) =
      [init, some "", some (tm.save_tasks serialize)] ∧
    some "" ∈ observableContents init (tm.save_ops serialize) ∧
    List.getLast? (observableContents init (tm.save_ops serialize)) =
      some (some (tm.save_tasks serialize)) := by
  refine ⟨rfl, ?_, rfl⟩
  show some "" ∈ [init, some "", some (tm.save_tasks serialize)]
  simp

/-- C10: add is total over arbitrary description strings, the empty
string included: it performs no validation, returns the current next
id, and appends exactly one task carrying the given description
verbatim, priority Medium, completed false. -/
theorem C10_add_accepts_any (tm : TaskManager) (s : String) :
    (tm.add_task s).1 = tm.next_available_id ∧
    (tm.add_task s).2.tasks = tm.tasks ++
      [{ id := tm.next_available_id, description := s, completed := false,
         priority := Priority.Medium }] ∧
    (tm.add_task s).2.next_available_id = tm.next_available_id + 1 ∧
    (tm.add_task s).2.file_path = tm.file_path :=
  ⟨rfl, rfl, rfl, rfl⟩

example : runningMaxId 0 [Task.new_task "a" 3 Priority.Low, Task.new_task "b" 7 Priority.High] = 7 := by
  decide

example :
    assignIds 2 [Task.new_task "a" 0 Priority.Low, Task.new_task "b" 1 Priority.High,
      Task.new_task "c" 0 Priority.Medium] =
    (4, [Task.new_task "a" 3 Priority.Low, Task.new_task "b" 1 Priority.High,
      Task.new_task "c" 4 Priority.Medium]) := by
  decide

end Taskmaster
